import Mathlib

/-!
Verification of the batch orchestration engine of `lazyproarcconvert`.

The Rust sources are shallowly embedded: filesystem state is an abstract
existence predicate `String → Bool` on paths, external tool invocations are
an abstract outcome oracle, and every embedded function mirrors the control
flow of its Rust counterpart in `src/main.rs`, `src/manifest.rs` and
`src/blake3.rs`.
-/

namespace LazyProArc

/-- Type `JobStatus` from `main.rs`: `Pending | Processing | Done | Failed(String) | AlreadyDone`. -/
inductive JobStatus where
  | Pending : JobStatus
  | Processing : JobStatus
  | Done : JobStatus
  | Failed : String → JobStatus
  | AlreadyDone : JobStatus
deriving Repr, DecidableEq

/-- Type `BatchJob` from `main.rs`: batch directory, first page index, number of
TIFF files, and current status.  The directory is abstracted to its path
string. -/
structure BatchJob where
  dir : String
  index_start : Nat
  file_count : Nat
  status : JobStatus
deriving Repr, DecidableEq

/-- The run-wide artifact configuration: the four `do_*` toggles plus the
zero-padding width `digits` (fields of `App`/`Args` in `main.rs`). -/
structure Config where
  do_master : Bool
  do_user : Bool
  do_txt : Bool
  do_alto : Bool
  digits : Nat
deriving Repr, DecidableEq

/-- Zero-padded decimal rendering, Rust `format!("{idx:0digits$}")`:
pad with leading zeros up to width `digits`, never truncating. -/
def zeroPad (digits n : Nat) : String :=
  let s := toString n
  String.mk (List.replicate (digits - s.length) '0') ++ s

/-- The last component of a path string, Rust `Path::file_name` (abstracted:
the final `/`-separated nonempty component). -/
def fileName (p : String) : Option String :=
  (p.splitOn "/").filter (fun s => s ≠ "") |>.getLast?

/-- Function `batch_output_dir` from `main.rs`: the output root itself when the batch
is the input root, otherwise `output_root/<batch file name>`. -/
def batch_output_dir (output_root input_root batch_dir : String) : String :=
  if batch_dir = input_root then output_root
  else
    match fileName batch_dir with
    | some name => output_root ++ "/" ++ name
    | none => output_root

/-- Expected master-derivative output path `<out>/<idx>.ac.jp2`. -/
def acPath (outDir : String) (digits idx : Nat) : String :=
  outDir ++ "/" ++ zeroPad digits idx ++ ".ac.jp2"

/-- Expected user-derivative output path `<out>/<idx>.uc.jp2`. -/
def ucPath (outDir : String) (digits idx : Nat) : String :=
  outDir ++ "/" ++ zeroPad digits idx ++ ".uc.jp2"

/-- Expected OCR plain-text output path `<out>/<idx>.ocr.txt`. -/
def txtPath (outDir : String) (digits idx : Nat) : String :=
  outDir ++ "/" ++ zeroPad digits idx ++ ".ocr.txt"

/-- Expected OCR layout-XML output path `<out>/<idx>.ocr.xml`. -/
def altoPath (outDir : String) (digits idx : Nat) : String :=
  outDir ++ "/" ++ zeroPad digits idx ++ ".ocr.xml"

/-- The `required_formats` counter computed in `check_batch_already_done`. -/
def requiredFormats (c : Config) : Nat :=
  (if c.do_master then 1 else 0) + (if c.do_user then 1 else 0) +
  (if c.do_txt then 1 else 0) + (if c.do_alto then 1 else 0)

/-- The per-page `file_formats` counter of `check_batch_already_done`:
one point per enabled kind whose expected file exists.  `fs` is the
filesystem existence predicate. -/
def pageFormats (fs : String → Bool) (c : Config) (outDir : String) (idx : Nat) : Nat :=
  (if c.do_master && fs (acPath outDir c.digits idx) then 1 else 0) +
  (if c.do_user && fs (ucPath outDir c.digits idx) then 1 else 0) +
  (if c.do_txt && fs (txtPath outDir c.digits idx) then 1 else 0) +
  (if c.do_alto && fs (altoPath outDir c.digits idx) then 1 else 0)

/-- Function `check_batch_already_done` from `main.rs`: false when the batch output
directory does not exist; true when no kind is enabled; otherwise true iff
every page reaches the full `required_formats` count. -/
def check_batch_already_done (fs : String → Bool) (batch : BatchJob)
    (output_root input_root : String) (c : Config) : Bool :=
  let batch_out_dir := batch_output_dir output_root input_root batch.dir
  if !fs batch_out_dir then false
  else if requiredFormats c = 0 then true
  else
    (List.range batch.file_count).all fun i =>
      requiredFormats c ≤ pageFormats fs c batch_out_dir (batch.index_start + i)

/-- The body of the `update_jobs_status_on_start` loop in `main.rs`, applied
to one job: on a positive completeness check a non-`Done` job becomes
`AlreadyDone`; on a negative check an `AlreadyDone` job becomes `Pending`;
every other job keeps its status. -/
def update_job_status (fs : String → Bool) (output_root input_root : String)
    (c : Config) (job : BatchJob) : BatchJob :=
  if check_batch_already_done fs job output_root input_root c then
    if job.status = JobStatus.Done then job
    else { job with status := JobStatus.AlreadyDone }
  else if job.status = JobStatus.AlreadyDone then
    { job with status := JobStatus.Pending }
  else job

/-- Function `update_jobs_status_on_start` from `main.rs`: the per-job update applied
to every job in the list. -/
def update_jobs_status_on_start (fs : String → Bool) (output_root input_root : String)
    (c : Config) (jobs : List BatchJob) : List BatchJob :=
  jobs.map (update_job_status fs output_root input_root c)

/-! ### Pipeline executor (`process_batch`, `run_job`, selection policies) -/

/-- One external tool invocation of `process_batch`: a master-JP2 encode, a
user-JP2 encode, or a unified OCR call (which produces text and/or ALTO) for
one page index. -/
inductive Invocation where
  | master : Nat → Invocation
  | user : Nat → Invocation
  | ocr : Nat → Invocation
deriving Repr, DecidableEq

/-- The outcome oracle for external tools: `none` means the invocation
succeeded, `some e` that it failed with error message `e`. -/
def Outcome : Type := Invocation → Option String

/-- The `if first_error.is_none() { first_error = Some(e) }` update of
`process_batch`: keep the earlier error when there is one. -/
def updFirst (firstErr e : Option String) : Option String :=
  match firstErr with
  | some f => some f
  | none => e

/-- The body of the per-page loop of `process_batch` for one page: emits the
tool invocations in source order (master, then user, then one unified OCR
call when text or ALTO is enabled) and threads the first-error slot. -/
def runPage (outcome : Outcome) (c : Config) (idx : Nat) (firstErr : Option String) :
    List Invocation × Option String :=
  let s1 :=
    if c.do_master then
      ([Invocation.master idx], updFirst firstErr (outcome (Invocation.master idx)))
    else ([], firstErr)
  let s2 :=
    if c.do_user then
      (s1.1 ++ [Invocation.user idx], updFirst s1.2 (outcome (Invocation.user idx)))
    else s1
  if c.do_txt || c.do_alto then
    (s2.1 ++ [Invocation.ocr idx], updFirst s2.2 (outcome (Invocation.ocr idx)))
  else s2

/-- The page loop of `process_batch`: `n` pages starting at index `idx`,
threading the first-error slot, collecting every invocation made. -/
def process_batch_loop (outcome : Outcome) (c : Config) :
    Nat → Nat → Option String → List Invocation × Option String
  | _, 0, firstErr => ([], firstErr)
  | idx, n + 1, firstErr =>
    let step := runPage outcome c idx firstErr
    let rest := process_batch_loop outcome c (idx + 1) n step.2
    (step.1 ++ rest.1, rest.2)

/-- Function `process_batch` from `main.rs`, abstracted over the tool-outcome oracle:
returns the invocations actually performed and `Ok`/`Err(first_error)`.
A batch with no TIFF files, or with all four kinds disabled, returns `Ok`
immediately with no invocation. -/
def process_batch (outcome : Outcome) (c : Config) (tiffCount index_start : Nat) :
    List Invocation × Except String Unit :=
  if tiffCount = 0 then ([], Except.ok ())
  else if !(c.do_master || c.do_user || c.do_txt || c.do_alto) then ([], Except.ok ())
  else
    let r := process_batch_loop outcome c index_start tiffCount none
    (r.1, match r.2 with
      | some e => Except.error e
      | none => Except.ok ())

/-- The terminal status `run_job` assigns from the `process_batch` result:
`Done` on `Ok`, `Failed(e)` on `Err(e)`. -/
def run_job_status (res : Except String Unit) : JobStatus :=
  match res with
  | Except.ok _ => JobStatus.Done
  | Except.error e => JobStatus.Failed e

/-- The match arm of `process_selected` in `main.rs`: only an `AlreadyDone`
job is rejected; any other status falls into the wildcard arm and is run. -/
def process_selected_runs (s : JobStatus) : Bool :=
  match s with
  | JobStatus.AlreadyDone => false
  | _ => true

/-- The `is_processable` filter of `process_all_pending` in `main.rs`:
`matches!(status, Pending | Failed(_))`. -/
def process_all_pending_runs (s : JobStatus) : Bool :=
  match s with
  | JobStatus.Pending => true
  | JobStatus.Failed _ => true
  | _ => false

/-- The set of statuses from which the spec permits entering `Processing`:
`Pending` or `Failed` (spec 4.3). -/
def isStartable (s : JobStatus) : Bool :=
  match s with
  | JobStatus.Pending => true
  | JobStatus.Failed _ => true
  | _ => false

/-! ### Batch discovery (`init_jobs_from_dirs`) -/

/-- One candidate batch directory as discovery sees it: its file name (used
for sorting) and the number of TIFF files `collect_tiffs_in_dir` returns. -/
structure DirEntry where
  name : String
  tiffCount : Nat
deriving Repr, DecidableEq

/-- The input tree visible to `init_jobs_from_dirs`: the root directory (its
name and direct TIFF count) and the first-level subdirectories in `read_dir`
order. -/
structure InputTree where
  rootName : String
  rootTiffs : Nat
  subdirs : List DirEntry
deriving Repr, DecidableEq

/-- Predicate `has_tiffs_in_dir` in the pure model: at least one TIFF file. -/
def has_tiffs (d : DirEntry) : Bool := decide (0 < d.tiffCount)

/-- The name comparison of the `sort_by` call in `init_jobs_from_dirs`. -/
def nameLe (a b : DirEntry) : Bool := decide (a.name ≤ b.name)

/-- The job-assignment loop of `init_jobs_from_dirs`: walk the sorted batch
directories, skip empty ones, and advance the running index counter by each
pushed batch's page count. -/
def assign_jobs : Nat → List DirEntry → List BatchJob
  | _, [] => []
  | next_index, d :: rest =>
    if d.tiffCount = 0 then assign_jobs next_index rest
    else
      { dir := d.name, index_start := next_index, file_count := d.tiffCount,
        status := JobStatus.Pending } :: assign_jobs (next_index + d.tiffCount) rest

/-- Function `init_jobs_from_dirs` from `main.rs`: candidates are the root itself
(when it holds TIFFs) followed by every first-level subdirectory holding
TIFFs; candidates are sorted by file name, then jobs are assigned with a
running sequence counter starting at `start_index`. -/
def init_jobs_from_dirs (t : InputTree) (start_index : Nat) : List BatchJob :=
  let batch_dirs :=
    (if has_tiffs { name := t.rootName, tiffCount := t.rootTiffs } then
      [({ name := t.rootName, tiffCount := t.rootTiffs } : DirEntry)]
    else []) ++ t.subdirs.filter has_tiffs
  let sorted := batch_dirs.mergeSort nameLe
  assign_jobs start_index sorted

/-! ### Bounded convergence wait (`wait_for_jp2_files`) -/

/-- Constant `max_attempts` in `wait_for_jp2_files`. -/
def max_attempts : Nat := 5

/-- The poll delay of `wait_for_jp2_files`, in milliseconds. -/
def delay_ms : Nat := 500

/-- One poll of `wait_for_jp2_files`: every enabled JP2 output of every page
exists (the source loop breaks at the first missing file; `List.all`
short-circuits the same way). -/
def jp2_all_exist (fs : String → Bool) (output_dir : String)
    (index_start file_count digits : Nat) (do_master do_user : Bool) : Bool :=
  (List.range file_count).all fun i =>
    (!do_master || fs (acPath output_dir digits (index_start + i))) &&
    (!do_user || fs (ucPath output_dir digits (index_start + i)))

/-- The attempt loop of `wait_for_jp2_files`.  `check a` is the poll made on
attempt number `a`; the filesystem may change between polls.  Returns the
log lines produced and the number of polls made.  The `remaining` fuel
argument starts at `max_attempts`, so the loop is structurally bounded. -/
def wait_loop (check : Nat → Bool) : Nat → Nat → List String × Nat
  | _, 0 => (["Varování: Některé JP2 soubory nebyly vytvořeny včas"], 0)
  | attempt, remaining + 1 =>
    if check attempt then
      (["Všechny JP2 soubory připraveny (pokus " ++ toString attempt ++ "/" ++
        toString max_attempts ++ ")"], 1)
    else
      let rest := wait_loop check (attempt + 1) remaining
      ((if attempt < max_attempts then
          ["Čekám na JP2 soubory... (pokus " ++ toString attempt ++ "/" ++
            toString max_attempts ++ ")"]
        else []) ++ rest.1,
       rest.2 + 1)

/-- Function `wait_for_jp2_files` from `main.rs`: up to `max_attempts` polls starting
at attempt 1, sleeping `delay_ms` between polls; on exhaustion only a warning
log line is appended.  `fsAt a` is the filesystem as seen by the poll of
attempt `a`. -/
def wait_for_jp2_files (fsAt : Nat → String → Bool) (output_dir : String)
    (index_start file_count digits : Nat) (do_master do_user : Bool) :
    List String × Nat :=
  wait_loop
    (fun a => jp2_all_exist (fsAt a) output_dir index_start file_count digits do_master do_user)
    1 max_attempts

/-- The status-relevant part of `run_job` from `main.rs`: set `Processing`,
run `process_batch`, then resolve `Done`/`Failed`; on success the bounded
convergence wait runs (when a JP2 kind is enabled) but its result is only
logged and the status is left as resolved.  Returns the final status and the
wait logs. -/
def run_job (outcome : Outcome) (c : Config) (fsAt : Nat → String → Bool)
    (output_dir : String) (tiffCount index_start : Nat) : JobStatus × List String :=
  let res := (process_batch outcome c tiffCount index_start).2
  match res with
  | Except.ok _ =>
    let waitLogs :=
      if c.do_master || c.do_user then
        (wait_for_jp2_files fsAt output_dir index_start tiffCount c.digits
          c.do_master c.do_user).1
      else []
    (JobStatus.Done, waitLogs)
  | Except.error e => (JobStatus.Failed e, [])

/-! ### Manifest builder (`manifest.rs`) -/

/-- Type `FileInfo` from `manifest.rs`: full path, size, BLAKE3 digest. -/
structure FileInfo where
  path : String
  size : Nat
  blake3 : String
deriving Repr, DecidableEq

/-- Type `PageEntry` from `manifest.rs`: the zero-padded index, the source TIFF
record, and one optional record per artifact kind. -/
structure PageEntry where
  index : String
  original_tiff : FileInfo
  ac_jp2 : Option FileInfo
  uc_jp2 : Option FileInfo
  txt : Option FileInfo
  alto : Option FileInfo
deriving Repr, DecidableEq

/-- The filesystem as the manifest builder sees it: path existence, and the
two fallible IO primitives used by `file_info` (`fs::metadata` for the size
and `compute_blake3` for the digest). -/
structure ManifestFS where
  pathExists : String → Bool
  metaSize : String → Except String Nat
  hashHex : String → Except String String

/-- Function `file_info` from `manifest.rs`: stat the file, hash it, build the
record; either IO failure propagates. -/
def file_info (fs : ManifestFS) (p : String) : Except String FileInfo := do
  let size ← fs.metaSize p
  let h ← fs.hashHex p
  Except.ok { path := p, size := size, blake3 := h }

/-- One artifact-kind slot of the page loop of `build_manifest_for_batch`:
`None` when the kind is disabled; when enabled, a `FileRecord` if the
expected path exists (an IO error on that existing file propagates), `None`
if it does not. -/
def kindEntry (fs : ManifestFS) (enabled : Bool) (p : String) :
    Except String (Option FileInfo) :=
  if enabled then
    if fs.pathExists p then do
      let fi ← file_info fs p
      Except.ok (some fi)
    else Except.ok none
  else Except.ok none

/-- The page loop of `build_manifest_for_batch`: walk the re-listed source
TIFFs with the running index, hashing the TIFF and probing each enabled
kind's expected output path. -/
def build_pages (fs : ManifestFS) (output_dir : String) (c : Config) :
    List String → Nat → Except String (List PageEntry)
  | [], _ => Except.ok []
  | tif :: rest, idx =>
    match file_info fs tif with
    | Except.error e => Except.error e
    | Except.ok tiff_info =>
      match kindEntry fs c.do_master (output_dir ++ "/" ++ zeroPad c.digits idx ++ ".ac.jp2") with
      | Except.error e => Except.error e
      | Except.ok ac =>
        match kindEntry fs c.do_user (output_dir ++ "/" ++ zeroPad c.digits idx ++ ".uc.jp2") with
        | Except.error e => Except.error e
        | Except.ok uc =>
          match kindEntry fs c.do_txt (output_dir ++ "/" ++ zeroPad c.digits idx ++ ".ocr.txt") with
          | Except.error e => Except.error e
          | Except.ok tx =>
            match kindEntry fs c.do_alto (output_dir ++ "/" ++ zeroPad c.digits idx ++ ".ocr.xml") with
            | Except.error e => Except.error e
            | Except.ok al =>
              match build_pages fs output_dir c rest (idx + 1) with
              | Except.error e => Except.error e
              | Except.ok restPages =>
                Except.ok
                  ({ index := zeroPad c.digits idx, original_tiff := tiff_info,
                     ac_jp2 := ac, uc_jp2 := uc, txt := tx, alto := al } :: restPages)

/-- The pages part of `build_manifest_for_batch` from `manifest.rs`:
`tiffs` is what `collect_tiffs_in_dir` re-listed from the batch input
directory; pages are built from `index_start`. -/
def build_manifest_for_batch (fs : ManifestFS) (tiffs : List String)
    (output_dir : String) (index_start : Nat) (c : Config) :
    Except String (List PageEntry) :=
  build_pages fs output_dir c tiffs index_start

/-! ### Content hasher (`blake3.rs`) -/

/-- Chunk size of the read loop in `compute_blake3` (`[0u8; 8192]`). -/
def CHUNK : Nat := 8192

/-- The read loop of `compute_blake3` fed by the sequence of chunk reads the
OS delivers: stop at the first empty read (EOF) or at list exhaustion,
propagate the first read error, otherwise accumulate the bytes fed to the
hasher (`Hasher::update` concatenates). -/
def read_loop : List (Except String (List (Fin 256))) → Except String (List (Fin 256))
  | [] => Except.ok []
  | Except.error e :: _ => Except.error e
  | Except.ok c :: rest =>
    if c.isEmpty then Except.ok []
    else do
      let tail ← read_loop rest
      Except.ok (c ++ tail)

/-- One lowercase hexadecimal digit, `0`–`9` then `a`–`f`. -/
def hexDigit (n : Nat) : Char :=
  if n < 10 then Char.ofNat (48 + n) else Char.ofNat (87 + n)

/-- Lowercase hexadecimal rendering of a byte string, two digits per byte
(the `to_hex` rendering of the finalized digest). -/
def toHexLower (bytes : List (Fin 256)) : String :=
  String.mk (bytes.flatMap fun b => [hexDigit (b.val / 16), hexDigit (b.val % 16)])

/-- Function `compute_blake3` from `blake3.rs`, abstracted over the hash compression
function `hashFn` (the `blake3` crate is an external collaborator): open the
file, stream it in `CHUNK`-sized reads, finalize, render as lowercase hex.
`openResult` models `File::open`, `reads` the successive `read` results. -/
def compute_blake3 (hashFn : List (Fin 256) → List (Fin 256))
    (openResult : Except String Unit)
    (reads : List (Except String (List (Fin 256)))) : Except String String :=
  match openResult with
  | Except.error e => Except.error e
  | Except.ok _ =>
    match read_loop reads with
    | Except.error e => Except.error e
    | Except.ok bytes => Except.ok (toHexLower (hashFn bytes))

/-! ### Shared lemmas about the completeness check -/

/-- The per-page counter reaches the required count iff every enabled kind's
expected file exists. -/
lemma pageFormats_ge_iff (fs : String → Bool) (c : Config) (outDir : String) (idx : Nat) :
    requiredFormats c ≤ pageFormats fs c outDir idx ↔
      ((c.do_master = true → fs (acPath outDir c.digits idx) = true) ∧
       (c.do_user = true → fs (ucPath outDir c.digits idx) = true) ∧
       (c.do_txt = true → fs (txtPath outDir c.digits idx) = true) ∧
       (c.do_alto = true → fs (altoPath outDir c.digits idx) = true)) := by
  unfold requiredFormats pageFormats
  cases hm : c.do_master <;> cases hu : c.do_user <;>
    cases ht : c.do_txt <;> cases ha : c.do_alto <;>
    cases hfm : fs (acPath outDir c.digits idx) <;>
    cases hfu : fs (ucPath outDir c.digits idx) <;>
    cases hft : fs (txtPath outDir c.digits idx) <;>
    cases hfa : fs (altoPath outDir c.digits idx) <;>
    simp_all

/-- Characterization of `check_batch_already_done` as a filesystem predicate: the output
directory exists and every page has every enabled kind's file. -/
lemma check_batch_already_done_iff (fs : String → Bool) (batch : BatchJob)
    (output_root input_root : String) (c : Config) :
    check_batch_already_done fs batch output_root input_root c = true ↔
      (fs (batch_output_dir output_root input_root batch.dir) = true ∧
       ∀ i < batch.file_count,
         (c.do_master = true →
           fs (acPath (batch_output_dir output_root input_root batch.dir) c.digits
             (batch.index_start + i)) = true) ∧
         (c.do_user = true →
           fs (ucPath (batch_output_dir output_root input_root batch.dir) c.digits
             (batch.index_start + i)) = true) ∧
         (c.do_txt = true →
           fs (txtPath (batch_output_dir output_root input_root batch.dir) c.digits
             (batch.index_start + i)) = true) ∧
         (c.do_alto = true →
           fs (altoPath (batch_output_dir output_root input_root batch.dir) c.digits
             (batch.index_start + i)) = true)) := by
  unfold check_batch_already_done
  by_cases hdir : fs (batch_output_dir output_root input_root batch.dir)
  · by_cases hreq : requiredFormats c = 0
    · have hflags : c.do_master = false ∧ c.do_user = false ∧ c.do_txt = false ∧
          c.do_alto = false := by
        unfold requiredFormats at hreq
        cases hm : c.do_master <;> cases hu : c.do_user <;>
          cases ht : c.do_txt <;> cases ha : c.do_alto <;> simp_all
      simp [hdir, hreq, hflags.1, hflags.2.1, hflags.2.2.1, hflags.2.2.2]
    · simp only [hdir, Bool.not_true, Bool.false_eq_true, if_false, hreq,
        List.all_eq_true, List.mem_range, decide_eq_true_eq]
      constructor
      · intro h
        refine ⟨by simp [hdir], fun i hi => ?_⟩
        exact (pageFormats_ge_iff fs c _ _).mp (h i hi)
      · intro h i hi
        exact (pageFormats_ge_iff fs c _ _).mpr (h.2 i hi)
  · simp only [Bool.not_eq_true] at hdir
    simp [hdir]

/-! ### Claim C1 -/

/-- C1: reconciliation classifies a job as already done iff the job's output
directory exists and, for every page index from `index_start` to
`index_start + file_count - 1`, every currently enabled artifact kind's
expected output file exists — a pure existence check on the filesystem, with
no digest involved. -/
theorem already_done_iff_every_enabled_file_exists (fs : String → Bool)
    (batch : BatchJob) (output_root input_root : String) (c : Config) :
    check_batch_already_done fs batch output_root input_root c = true ↔
      (fs (batch_output_dir output_root input_root batch.dir) = true ∧
       ∀ i < batch.file_count,
         (c.do_master = true →
           fs (acPath (batch_output_dir output_root input_root batch.dir) c.digits
             (batch.index_start + i)) = true) ∧
         (c.do_user = true →
           fs (ucPath (batch_output_dir output_root input_root batch.dir) c.digits
             (batch.index_start + i)) = true) ∧
         (c.do_txt = true →
           fs (txtPath (batch_output_dir output_root input_root batch.dir) c.digits
             (batch.index_start + i)) = true) ∧
         (c.do_alto = true →
           fs (altoPath (batch_output_dir output_root input_root batch.dir) c.digits
             (batch.index_start + i)) = true)) :=
  check_batch_already_done_iff fs batch output_root input_root c

/-! ### Claim C3 -/

/-- The all-enabled configuration with the default padding width. -/
def cfg0 : Config := { do_master := true, do_user := true, do_txt := true,
                       do_alto := true, digits := 4 }

/-- A filesystem on which no path exists. -/
def fsNone : String → Bool := fun _ => false

/-- A one-page job currently in the `Failed` state. -/
def jobFailed : BatchJob :=
  { dir := "in/batchA", index_start := 1, file_count := 1,
    status := JobStatus.Failed "boom" }

/-- C3 counterexample: on an empty filesystem every (page, kind) file of
`jobFailed` is missing and the job is not `Done`, yet reconciliation leaves
it `Failed` instead of setting it to `Pending`. -/
theorem reconcile_missing_not_always_pending :
    check_batch_already_done fsNone jobFailed "out" "in" cfg0 = false ∧
    jobFailed.status ≠ JobStatus.Done ∧
    (update_job_status fsNone "out" "in" cfg0 jobFailed).status = JobStatus.Failed "boom" ∧
    (update_job_status fsNone "out" "in" cfg0 jobFailed).status ≠ JobStatus.Pending := by
  refine ⟨rfl, by decide, rfl, by decide⟩

/-- C3 (amended): if at least one (page, enabled kind) expected output file
is missing, reconciliation sets the job's status to `Pending` only when the
job was `AlreadyDone`; a job in any other status (`Pending`, `Processing`,
`Done`, `Failed`) keeps its previous status. -/
theorem reconcile_missing_demotes_only_already_done (fs : String → Bool)
    (job : BatchJob) (output_root input_root : String) (c : Config)
    (h : ∃ i, i < job.file_count ∧
      ((c.do_master = true ∧
         fs (acPath (batch_output_dir output_root input_root job.dir) c.digits
           (job.index_start + i)) = false) ∨
       (c.do_user = true ∧
         fs (ucPath (batch_output_dir output_root input_root job.dir) c.digits
           (job.index_start + i)) = false) ∨
       (c.do_txt = true ∧
         fs (txtPath (batch_output_dir output_root input_root job.dir) c.digits
           (job.index_start + i)) = false) ∨
       (c.do_alto = true ∧
         fs (altoPath (batch_output_dir output_root input_root job.dir) c.digits
           (job.index_start + i)) = false))) :
    (update_job_status fs output_root input_root c job).status =
      if job.status = JobStatus.AlreadyDone then JobStatus.Pending else job.status := by
  have hcheck : check_batch_already_done fs job output_root input_root c = false := by
    rw [← Bool.not_eq_true, check_batch_already_done_iff]
    rintro ⟨-, hall⟩
    obtain ⟨i, hi, hk⟩ := h
    have := hall i hi
    rcases hk with ⟨he, hf⟩ | ⟨he, hf⟩ | ⟨he, hf⟩ | ⟨he, hf⟩
    · rw [this.1 he] at hf; exact Bool.noConfusion hf
    · rw [this.2.1 he] at hf; exact Bool.noConfusion hf
    · rw [this.2.2.1 he] at hf; exact Bool.noConfusion hf
    · rw [this.2.2.2 he] at hf; exact Bool.noConfusion hf
  unfold update_job_status
  rw [hcheck]
  by_cases had : job.status = JobStatus.AlreadyDone <;> simp [had]

/-- A one-page job currently in the `AlreadyDone` state. -/
def jobAlready : BatchJob :=
  { dir := "in/batchA", index_start := 1, file_count := 1,
    status := JobStatus.AlreadyDone }

/-- C3 witness: on the empty filesystem the master file of page 1 is
missing, and reconciliation of the `AlreadyDone` job yields `Pending`. -/
theorem reconcile_missing_demotes_only_already_done_witness :
    (update_job_status fsNone "out" "in" cfg0 jobAlready).status =
      if jobAlready.status = JobStatus.AlreadyDone then JobStatus.Pending
      else jobAlready.status :=
  reconcile_missing_demotes_only_already_done fsNone jobAlready "out" "in" cfg0
    ⟨0, by decide, Or.inl ⟨rfl, rfl⟩⟩

/-! ### Claim C8 -/

/-- C8: a job whose status is `Done` in the current session is never changed
by reconciliation — neither demoted to `Pending` when files are missing nor
relabelled `AlreadyDone` when all files are present. -/
theorem reconcile_never_touches_done (fs : String → Bool) (job : BatchJob)
    (output_root input_root : String) (c : Config)
    (h : job.status = JobStatus.Done) :
    (update_job_status fs output_root input_root c job).status = JobStatus.Done := by
  unfold update_job_status
  by_cases hc : check_batch_already_done fs job output_root input_root c = true <;>
    simp [hc, h]

/-- A one-page job currently in the `Done` state. -/
def jobDone : BatchJob :=
  { dir := "in/batchA", index_start := 1, file_count := 1, status := JobStatus.Done }

/-- C8 witness: reconciliation of a `Done` job on the empty filesystem (all
files missing) leaves it `Done`. -/
theorem reconcile_never_touches_done_witness :
    (update_job_status fsNone "out" "in" cfg0 jobDone).status = JobStatus.Done :=
  reconcile_never_touches_done fsNone jobDone "out" "in" cfg0 rfl

/-! ### Pipeline-executor lemmas -/

/-- The invocations `process_batch` makes for one page, in source order:
master encode, user encode, one unified OCR call. -/
def pageInvocations (c : Config) (idx : Nat) : List Invocation :=
  (if c.do_master then [Invocation.master idx] else []) ++
  (if c.do_user then [Invocation.user idx] else []) ++
  (if c.do_txt || c.do_alto then [Invocation.ocr idx] else [])

/-- Every invocation `process_batch` makes for a whole batch, page by page. -/
def allInvocations (c : Config) (index_start n : Nat) : List Invocation :=
  (List.range n).flatMap fun i => pageInvocations c (index_start + i)

/-- The first failing invocation's error message in a list of invocations. -/
def firstErrorOn (outcome : Outcome) : List Invocation → Option String
  | [] => none
  | i :: rest =>
    match outcome i with
    | some e => some e
    | none => firstErrorOn outcome rest

lemma updFirst_assoc (f a b : Option String) :
    updFirst (updFirst f a) b = updFirst f (updFirst a b) := by
  cases f <;> cases a <;> rfl

lemma updFirst_none (e : Option String) : updFirst none e = e := rfl

lemma firstErrorOn_append (outcome : Outcome) (l₁ l₂ : List Invocation) :
    firstErrorOn outcome (l₁ ++ l₂) =
      updFirst (firstErrorOn outcome l₁) (firstErrorOn outcome l₂) := by
  induction l₁ with
  | nil => rfl
  | cons i rest ih =>
    simp only [List.cons_append, firstErrorOn]
    cases outcome i <;> simp [updFirst, ih]

lemma firstErrorOn_eq_none_iff (outcome : Outcome) (l : List Invocation) :
    firstErrorOn outcome l = none ↔ ∀ i ∈ l, outcome i = none := by
  induction l with
  | nil => simp [firstErrorOn]
  | cons i rest ih =>
    simp only [firstErrorOn, List.mem_cons]
    cases h : outcome i <;> simp_all

lemma runPage_invocations (outcome : Outcome) (c : Config) (idx : Nat)
    (f : Option String) : (runPage outcome c idx f).1 = pageInvocations c idx := by
  unfold runPage pageInvocations
  cases c.do_master <;> cases c.do_user <;> cases (c.do_txt || c.do_alto) <;> simp

lemma runPage_error (outcome : Outcome) (c : Config) (idx : Nat) (f : Option String) :
    (runPage outcome c idx f).2 =
      updFirst f (firstErrorOn outcome (pageInvocations c idx)) := by
  unfold runPage pageInvocations
  cases c.do_master <;> cases c.do_user <;> cases (c.do_txt || c.do_alto) <;>
    simp [firstErrorOn_append, firstErrorOn, updFirst_assoc] <;>
    cases f <;> simp [updFirst] <;>
    cases outcome (Invocation.master idx) <;>
    cases outcome (Invocation.user idx) <;>
    cases outcome (Invocation.ocr idx) <;> simp [updFirst]

lemma allInvocations_succ (c : Config) (idx n : Nat) :
    allInvocations c idx (n + 1) =
      pageInvocations c idx ++ allInvocations c (idx + 1) n := by
  unfold allInvocations
  rw [List.range_succ_eq_map, List.flatMap_cons, List.flatMap_map]
  have harg : (fun i => pageInvocations c (idx + (i + 1))) =
      (fun i => pageInvocations c (idx + 1 + i)) := by
    funext i; congr 1; omega
  simp [harg, Function.comp_def]

lemma process_batch_loop_spec (outcome : Outcome) (c : Config) :
    ∀ (n idx : Nat) (f : Option String),
      process_batch_loop outcome c idx n f =
        (allInvocations c idx n,
         updFirst f (firstErrorOn outcome (allInvocations c idx n))) := by
  intro n
  induction n with
  | zero =>
    intro idx f
    cases f <;> simp [process_batch_loop, allInvocations, firstErrorOn, updFirst]
  | succ m ih =>
    intro idx f
    simp only [process_batch_loop, ih, allInvocations_succ, runPage_invocations,
      runPage_error, firstErrorOn_append, updFirst_assoc]

/-! ### Claim C2 -/

/-- C2: a failure of one tool invocation never aborts the batch — the
invocation list of `process_batch` is the full per-page, per-enabled-kind
list in page order (master, user, OCR within a page) no matter what the
outcome oracle answers; the retained error is the first failure in that
order; the batch resolves `Done` iff no invocation failed, and `Failed e`
iff `e` is the first failure. -/
theorem process_batch_partial_failure_semantics (outcome : Outcome) (c : Config)
    (n start : Nat) :
    (process_batch outcome c n start).1 = allInvocations c start n ∧
    (run_job_status (process_batch outcome c n start).2 = JobStatus.Done ↔
      ∀ i ∈ allInvocations c start n, outcome i = none) ∧
    (∀ e, run_job_status (process_batch outcome c n start).2 = JobStatus.Failed e ↔
      firstErrorOn outcome (allInvocations c start n) = some e) := by
  unfold process_batch
  by_cases hn : n = 0
  · subst hn
    simp [allInvocations, run_job_status, firstErrorOn]
  · by_cases hk : (c.do_master || c.do_user || c.do_txt || c.do_alto) = false
    · simp only [Bool.or_eq_false_iff] at hk
      obtain ⟨⟨⟨h1, h2⟩, h3⟩, h4⟩ := hk
      have hpage : ∀ idx, pageInvocations c idx = [] := by
        intro idx
        simp [pageInvocations, h1, h2, h3, h4]
      have hall : allInvocations c start n = [] := by
        simp [allInvocations, hpage]
      simp [hn, h1, h2, h3, h4, hall, run_job_status, firstErrorOn]
    · have hk' : (c.do_master || c.do_user || c.do_txt || c.do_alto) = true := by
        revert hk
        cases c.do_master || c.do_user || c.do_txt || c.do_alto <;> simp
      simp only [hn, if_false, hk', Bool.not_true, Bool.false_eq_true, if_neg hn,
        process_batch_loop_spec, updFirst_none]
      refine ⟨by simp, ?_, ?_⟩
      · cases he : firstErrorOn outcome (allInvocations c start n) with
        | none =>
          simp only [he, run_job_status, true_iff]
          exact (firstErrorOn_eq_none_iff outcome _).mp he
        | some e =>
          simp only [he, run_job_status]
          constructor
          · intro habs; exact absurd habs (by simp)
          · intro hall
            rw [(firstErrorOn_eq_none_iff outcome _).mpr hall] at he
            exact Option.noConfusion he
      · intro e'
        cases he : firstErrorOn outcome (allInvocations c start n) with
        | none => simp [he, run_job_status]
        | some e =>
          simp only [he, run_job_status, JobStatus.Failed.injEq, Option.some.injEq]

/-! ### Claim C10 -/

/-- C10: a batch with no TIFF source files, and likewise a batch for which
all four artifact kinds are disabled, makes `process_batch` return success
with no tool invocation at all, and `run_job` then marks the job `Done` (and
continues into manifest building) even though nothing was produced. -/
theorem empty_or_disabled_batch_trivially_done (outcome : Outcome) (c : Config)
    (fsAt : Nat → String → Bool) (output_dir : String) (n start : Nat) :
    process_batch outcome c 0 start = ([], Except.ok ()) ∧
    ((c.do_master || c.do_user || c.do_txt || c.do_alto) = false →
      process_batch outcome c n start = ([], Except.ok ())) ∧
    ((c.do_master || c.do_user || c.do_txt || c.do_alto) = false →
      (run_job outcome c fsAt output_dir n start).1 = JobStatus.Done) ∧
    (run_job outcome c fsAt output_dir 0 start).1 = JobStatus.Done := by
  refine ⟨by simp [process_batch], ?_, ?_, ?_⟩
  · intro hk
    by_cases hn : n = 0
    · simp [hn, process_batch]
    · simp only [Bool.or_eq_false_iff] at hk
      simp [process_batch, hn, hk.1.1.1, hk.1.1.2, hk.1.2, hk.2]
  · intro hk
    unfold run_job
    by_cases hn : n = 0
    · simp [hn, process_batch]
    · simp only [Bool.or_eq_false_iff] at hk
      simp [process_batch, hn, hk.1.1.1, hk.1.1.2, hk.1.2, hk.2]
  · unfold run_job
    simp [process_batch]

/-- The all-disabled configuration. -/
def cfgOff : Config := { do_master := false, do_user := false, do_txt := false,
                         do_alto := false, digits := 4 }

/-- The all-success tool oracle. -/
def outcomeOk : Outcome := fun _ => none

/-- C10 witness: with every kind disabled a three-page batch is processed
with no invocation, successfully, and resolves `Done`; so does an empty
batch. -/
theorem empty_or_disabled_batch_trivially_done_witness :
    process_batch outcomeOk cfgOff 0 1 = ([], Except.ok ()) ∧
    process_batch outcomeOk cfgOff 3 1 = ([], Except.ok ()) ∧
    (run_job outcomeOk cfgOff (fun _ _ => false) "out" 3 1).1 = JobStatus.Done ∧
    (run_job outcomeOk cfgOff (fun _ _ => false) "out" 0 1).1 = JobStatus.Done := by
  have h := empty_or_disabled_batch_trivially_done outcomeOk cfgOff
    (fun _ _ => false) "out" 3 1
  exact ⟨h.1, h.2.1 (by decide), h.2.2.1 (by decide), h.2.2.2⟩

/-! ### Claim C4 -/

/-- C4 counterexample: the single-job selection path of the executor runs a
`Done` job (only `AlreadyDone` falls in the rejecting match arm), so a `Done`
job does enter `Processing` through the executor, although `Done` is not
among the startable statuses `{Pending, Failed}`. -/
theorem executor_runs_done_job :
    process_selected_runs JobStatus.Done = true ∧
    isStartable JobStatus.Done = false ∧
    process_selected_runs JobStatus.Processing = true := by
  exact ⟨rfl, rfl, rfl⟩

/-- C4 (amended): the run-one selection rejects exactly `AlreadyDone` — any
other status, including `Done` and `Processing`, enters `Processing` when
selected; the run-all sweep starts exactly the `Pending` and `Failed` jobs;
and a started job always resolves to `Done` or to `Failed` with the first
error message. -/
theorem executor_entry_policy :
    (∀ s, process_selected_runs s = true ↔ s ≠ JobStatus.AlreadyDone) ∧
    (∀ s, process_all_pending_runs s = true ↔ isStartable s = true) ∧
    (∀ res, run_job_status res = JobStatus.Done ∨
      ∃ e, run_job_status res = JobStatus.Failed e) := by
  refine ⟨?_, ?_, ?_⟩
  · intro s
    cases s <;> simp [process_selected_runs]
  · intro s
    cases s <;> simp [process_all_pending_runs, isStartable]
  · intro res
    cases res with
    | ok u => exact Or.inl rfl
    | error e => exact Or.inr ⟨e, rfl⟩

/-! ### Discovery lemmas -/

lemma assign_jobs_count (s : Nat) (l : List DirEntry) :
    ∀ j ∈ assign_jobs s l, 1 ≤ j.file_count := by
  induction l generalizing s with
  | nil => simp [assign_jobs]
  | cons d rest ih =>
    intro j hj
    unfold assign_jobs at hj
    by_cases hz : d.tiffCount = 0
    · rw [if_pos hz] at hj
      exact ih s j hj
    · rw [if_neg hz] at hj
      rcases List.mem_cons.mp hj with h | h
      · subst h
        show 1 ≤ d.tiffCount
        omega
      · exact ih (s + d.tiffCount) j h

lemma assign_jobs_head (s : Nat) (l : List DirEntry) :
    ∀ j, (assign_jobs s l).head? = some j → j.index_start = s := by
  induction l generalizing s with
  | nil => simp [assign_jobs]
  | cons d rest ih =>
    intro j hj
    unfold assign_jobs at hj
    by_cases hz : d.tiffCount = 0
    · rw [if_pos hz] at hj
      exact ih s j hj
    · rw [if_neg hz] at hj
      simp only [List.head?_cons, Option.some.injEq] at hj
      subst hj
      rfl

lemma assign_jobs_chain (s : Nat) (l : List DirEntry) :
    List.Chain' (fun j k => k.index_start = j.index_start + j.file_count ∧
      j.index_start < k.index_start) (assign_jobs s l) := by
  induction l generalizing s with
  | nil => simp [assign_jobs]
  | cons d rest ih =>
    unfold assign_jobs
    by_cases hz : d.tiffCount = 0
    · rw [if_pos hz]
      exact ih s
    · rw [if_neg hz]
      rw [List.chain'_cons']
      refine ⟨fun k hk => ?_, ih (s + d.tiffCount)⟩
      have hhead := assign_jobs_head (s + d.tiffCount) rest k hk
      constructor
      · simpa using hhead
      · show s < k.index_start
        omega

lemma assign_jobs_mem_name (s : Nat) (l : List DirEntry) :
    ∀ j ∈ assign_jobs s l, ∃ d ∈ l, j.dir = d.name := by
  induction l generalizing s with
  | nil => simp [assign_jobs]
  | cons d rest ih =>
    intro j hj
    unfold assign_jobs at hj
    by_cases hz : d.tiffCount = 0
    · rw [if_pos hz] at hj
      obtain ⟨d', hd', he⟩ := ih s j hj
      exact ⟨d', List.mem_cons_of_mem d hd', he⟩
    · rw [if_neg hz] at hj
      rcases List.mem_cons.mp hj with h | h
      · subst h; exact ⟨d, List.mem_cons_self d rest, rfl⟩
      · obtain ⟨d', hd', he⟩ := ih (s + d.tiffCount) j h
        exact ⟨d', List.mem_cons_of_mem d hd', he⟩

lemma assign_jobs_sorted (s : Nat) (l : List DirEntry)
    (hl : l.Pairwise (fun a b => a.name ≤ b.name)) :
    (assign_jobs s l).Pairwise (fun j k => j.dir ≤ k.dir) := by
  induction l generalizing s with
  | nil => simp [assign_jobs]
  | cons d rest ih =>
    rw [List.pairwise_cons] at hl
    unfold assign_jobs
    by_cases hz : d.tiffCount = 0
    · rw [if_pos hz]
      exact ih s hl.2
    · rw [if_neg hz]
      rw [List.pairwise_cons]
      refine ⟨fun k hk => ?_, ih (s + d.tiffCount) hl.2⟩
      obtain ⟨d', hd', he⟩ := assign_jobs_mem_name (s + d.tiffCount) rest k hk
      simpa [he] using hl.1 d' hd'

lemma mergeSort_nameLe_sorted (l : List DirEntry) :
    (l.mergeSort nameLe).Pairwise (fun a b => a.name ≤ b.name) := by
  have h := @List.sorted_mergeSort DirEntry nameLe
    (fun a b c h1 h2 => by
      simp only [nameLe, decide_eq_true_eq] at *
      exact le_trans h1 h2)
    (fun a b => by
      simp only [nameLe, Bool.or_eq_true, decide_eq_true_eq]
      exact le_total a.name b.name)
    l
  exact h.imp (fun hab => by simpa [nameLe] using hab)

/-! ### Claim C5 -/

/-- C5: for every input tree and start index, the discovered job list is
ordered by batch name; every job has at least one page (empty candidates are
dropped); the first job starts at the given start index; and each next job's
start sequence number is the previous job's start plus its page count, so
the sequence numbers are contiguous and (having positive counts) strictly
increasing. -/
theorem discovery_sequence_numbers (t : InputTree) (start_index : Nat) :
    ((init_jobs_from_dirs t start_index).Pairwise (fun j k => j.dir ≤ k.dir)) ∧
    (∀ j ∈ init_jobs_from_dirs t start_index, 1 ≤ j.file_count) ∧
    (∀ j, (init_jobs_from_dirs t start_index).head? = some j →
      j.index_start = start_index) ∧
    (List.Chain' (fun j k => k.index_start = j.index_start + j.file_count ∧
        j.index_start < k.index_start) (init_jobs_from_dirs t start_index)) := by
  unfold init_jobs_from_dirs
  exact ⟨assign_jobs_sorted _ _ (mergeSort_nameLe_sorted _), assign_jobs_count _ _,
    assign_jobs_head _ _, assign_jobs_chain _ _⟩

unseal List.merge List.mergeSort String.ltb in
/-- C5 witness: a root without direct TIFFs holding subdirectories `b` (2
pages), `a` (3 pages) and `empty` (0 pages), with start index 1, yields jobs
`a` at 1 and `b` at 4. -/
theorem discovery_sequence_numbers_witness :
    (init_jobs_from_dirs
        { rootName := "in", rootTiffs := 0,
          subdirs := [{ name := "b", tiffCount := 2 }, { name := "a", tiffCount := 3 },
                      { name := "empty", tiffCount := 0 }] } 1).head? =
      some { dir := "a", index_start := 1, file_count := 3,
             status := JobStatus.Pending } ∧
    (∀ j, (init_jobs_from_dirs
        { rootName := "in", rootTiffs := 0,
          subdirs := [{ name := "b", tiffCount := 2 }, { name := "a", tiffCount := 3 },
                      { name := "empty", tiffCount := 0 }] } 1).head? = some j →
      j.index_start = 1) := by
  constructor
  · rfl
  · exact (discovery_sequence_numbers
      { rootName := "in", rootTiffs := 0,
        subdirs := [{ name := "b", tiffCount := 2 }, { name := "a", tiffCount := 3 },
                    { name := "empty", tiffCount := 0 }] } 1).2.2.1

/-! ### Convergence-wait lemmas -/

/-- The warning line appended when the wait gives up. -/
def jp2Warning : String := "Varování: Některé JP2 soubory nebyly vytvořeny včas"

lemma wait_loop_polls_le (check : Nat → Bool) :
    ∀ (remaining attempt : Nat), (wait_loop check attempt remaining).2 ≤ remaining := by
  intro remaining
  induction remaining with
  | zero => intro attempt; simp [wait_loop]
  | succ m ih =>
    intro attempt
    unfold wait_loop
    by_cases hc : check attempt = true
    · simp [hc]
    · simp only [hc, Bool.false_eq_true, if_false]
      have := ih (attempt + 1)
      omega

lemma wait_loop_all_fail (check : Nat → Bool) :
    ∀ (remaining attempt : Nat),
      (∀ a, attempt ≤ a → a < attempt + remaining → check a = false) →
      (wait_loop check attempt remaining).1.getLast? = some jp2Warning := by
  intro remaining
  induction remaining with
  | zero => intro attempt _; rfl
  | succ m ih =>
    intro attempt hfail
    have hc : check attempt = false := hfail attempt le_rfl (by omega)
    unfold wait_loop
    simp only [hc, Bool.false_eq_true, if_false]
    have hrest := ih (attempt + 1) (fun a ha1 ha2 => hfail a (by omega) (by omega))
    have hne : (wait_loop check (attempt + 1) m).1 ≠ [] := by
      intro habs
      rw [habs] at hrest
      exact Option.noConfusion hrest
    rw [List.getLast?_append_of_ne_nil _ hne]
    exact hrest

/-! ### Claim C6 -/

/-- C6: the convergence wait makes at most `max_attempts = 5` polls with a
`delay_ms = 500` pause between polls, hence always terminates; when every
poll fails the last log line is only the non-fatal warning; and the terminal
status `run_job` resolves never depends on what the wait observes — for a
successful batch it is `Done` under every filesystem behaviour. -/
theorem convergence_wait_bounded (fsAt fsAt' : Nat → String → Bool)
    (output_dir : String) (index_start file_count digits : Nat)
    (dm du : Bool) (outcome : Outcome) (c : Config) (n start : Nat)
    (hfail : ∀ a < max_attempts + 1, 1 ≤ a →
      jp2_all_exist (fsAt a) output_dir index_start file_count digits dm du = false) :
    max_attempts = 5 ∧ delay_ms = 500 ∧
    (wait_for_jp2_files fsAt output_dir index_start file_count digits dm du).2 ≤
      max_attempts ∧
    (wait_for_jp2_files fsAt output_dir index_start file_count digits dm du).1.getLast? =
      some jp2Warning ∧
    (run_job outcome c fsAt output_dir n start).1 =
      (run_job outcome c fsAt' output_dir n start).1 := by
  refine ⟨rfl, rfl, wait_loop_polls_le _ _ _, ?_, ?_⟩
  · exact wait_loop_all_fail _ max_attempts 1
      (fun a ha1 ha2 => hfail a (by omega) ha1)
  · unfold run_job
    cases (process_batch outcome c n start).2 <;> rfl

/-- C6 witness: with no file ever appearing and one page with the master
kind enabled, the wait makes at most five polls and ends in the warning
line, and the resolved status is independent of the observed filesystem. -/
theorem convergence_wait_bounded_witness :
    max_attempts = 5 ∧ delay_ms = 500 ∧
    (wait_for_jp2_files (fun _ _ => false) "out" 1 1 4 true false).2 ≤ max_attempts ∧
    (wait_for_jp2_files (fun _ _ => false) "out" 1 1 4 true false).1.getLast? =
      some jp2Warning ∧
    (run_job outcomeOk cfg0 (fun _ _ => false) "out" 1 1).1 =
      (run_job outcomeOk cfg0 (fun _ _ => true) "out" 1 1).1 :=
  convergence_wait_bounded (fun _ _ => false) (fun _ _ => true) "out" 1 1 4
    true false outcomeOk cfg0 1 1 (by decide)

/-! ### Manifest-builder lemmas -/

lemma kindEntry_isSome (fs : ManifestFS) (en : Bool) (p : String)
    (r : Option FileInfo) (h : kindEntry fs en p = Except.ok r) :
    r.isSome = (en && fs.pathExists p) := by
  unfold kindEntry at h
  by_cases hen : en = true
  · by_cases hex : fs.pathExists p = true
    · simp only [hen, if_true, hex] at h ⊢
      cases hfi : file_info fs p with
      | ok fi =>
        rw [hfi] at h
        have h' : (Except.ok (some fi) : Except String (Option FileInfo)) = Except.ok r := h
        cases h'
        simp
      | error e =>
        rw [hfi] at h
        have h' : (Except.error e : Except String (Option FileInfo)) = Except.ok r := h
        exact Except.noConfusion h'
    · simp only [hen, if_true] at h
      rw [if_neg hex] at h
      cases h
      simp [hex]
  · have hen' : en = false := by revert hen; cases en <;> simp
    rw [hen'] at h ⊢
    simp only [Bool.false_eq_true, if_false] at h
    cases h
    rfl

lemma kindEntry_error (fs : ManifestFS) (en : Bool) (p : String) (e : String)
    (h : kindEntry fs en p = Except.error e) :
    fs.pathExists p = true ∧ file_info fs p = Except.error e := by
  unfold kindEntry at h
  by_cases hen : en = true
  · by_cases hex : fs.pathExists p = true
    · refine ⟨hex, ?_⟩
      simp only [hen, if_true, hex] at h
      cases hfi : file_info fs p with
      | ok fi =>
        rw [hfi] at h
        have h' : (Except.ok (some fi) : Except String (Option FileInfo)) = Except.error e := h
        exact Except.noConfusion h'
      | error e' =>
        rw [hfi] at h
        have h' : (Except.error e' : Except String (Option FileInfo)) = Except.error e := h
        cases h'
        rfl
    · simp only [hen, if_true] at h
      rw [if_neg hex] at h
      exact Except.noConfusion h
  · have hen' : en = false := by revert hen; cases en <;> simp
    rw [hen'] at h
    simp only [Bool.false_eq_true, if_false] at h
    exact Except.noConfusion h

lemma kindEntry_ok_exists (fs : ManifestFS) (en : Bool) (p : String)
    (hio : ∀ q, fs.pathExists q = true → ∃ fi, file_info fs q = Except.ok fi) :
    ∃ r, kindEntry fs en p = Except.ok r := by
  unfold kindEntry
  by_cases hen : en = true
  · by_cases hex : fs.pathExists p = true
    · obtain ⟨fi, hfi⟩ := hio p hex
      refine ⟨some fi, ?_⟩
      rw [hen, if_pos rfl, if_pos hex, hfi]
      rfl
    · exact ⟨none, by simp [hen, hex]⟩
  · have hen' : en = false := by revert hen; cases en <;> simp
    exact ⟨none, by simp [hen']⟩

lemma build_pages_ok_spec (fs : ManifestFS) (output_dir : String) (c : Config) :
    ∀ (tiffs : List String) (idx : Nat) (pages : List PageEntry),
      build_pages fs output_dir c tiffs idx = Except.ok pages →
      pages.length = tiffs.length ∧
      ∀ i pe, pages.get? i = some pe →
        pe.index = zeroPad c.digits (idx + i) ∧
        pe.ac_jp2.isSome = (c.do_master &&
          fs.pathExists (output_dir ++ "/" ++ zeroPad c.digits (idx + i) ++ ".ac.jp2")) ∧
        pe.uc_jp2.isSome = (c.do_user &&
          fs.pathExists (output_dir ++ "/" ++ zeroPad c.digits (idx + i) ++ ".uc.jp2")) ∧
        pe.txt.isSome = (c.do_txt &&
          fs.pathExists (output_dir ++ "/" ++ zeroPad c.digits (idx + i) ++ ".ocr.txt")) ∧
        pe.alto.isSome = (c.do_alto &&
          fs.pathExists (output_dir ++ "/" ++ zeroPad c.digits (idx + i) ++ ".ocr.xml")) := by
  intro tiffs
  induction tiffs with
  | nil =>
    intro idx pages h
    cases h
    refine ⟨rfl, fun i pe hpe => ?_⟩
    simp at hpe
  | cons tif rest ih =>
    intro idx pages h
    unfold build_pages at h
    split at h
    · exact Except.noConfusion h
    rename_i tiff_info h1
    split at h
    · exact Except.noConfusion h
    rename_i ac hac
    split at h
    · exact Except.noConfusion h
    rename_i uc huc
    split at h
    · exact Except.noConfusion h
    rename_i tx htx
    split at h
    · exact Except.noConfusion h
    rename_i al hal
    split at h
    · exact Except.noConfusion h
    rename_i restPages hrest
    cases h
    obtain ⟨ihl, ihp⟩ := ih (idx + 1) restPages hrest
    refine ⟨by simp [ihl], fun i pe hpe => ?_⟩
    cases i with
    | zero =>
      simp only [List.get?_cons_zero, Option.some.injEq] at hpe
      subst hpe
      rw [Nat.add_zero]
      exact ⟨rfl, kindEntry_isSome fs c.do_master _ ac hac,
        kindEntry_isSome fs c.do_user _ uc huc,
        kindEntry_isSome fs c.do_txt _ tx htx,
        kindEntry_isSome fs c.do_alto _ al hal⟩
    | succ j =>
      simp only [List.get?_cons_succ] at hpe
      have := ihp j pe hpe
      have harith : idx + 1 + j = idx + (j + 1) := by omega
      rw [harith] at this
      exact this

lemma build_pages_error_spec (fs : ManifestFS) (output_dir : String) (c : Config) :
    ∀ (tiffs : List String) (idx : Nat) (e : String),
      build_pages fs output_dir c tiffs idx = Except.error e →
      ∃ p, (p ∈ tiffs ∨ fs.pathExists p = true) ∧ file_info fs p = Except.error e := by
  intro tiffs
  induction tiffs with
  | nil =>
    intro idx e h
    exact Except.noConfusion h
  | cons tif rest ih =>
    intro idx e h
    unfold build_pages at h
    split at h
    · rename_i e' h1
      cases h
      exact ⟨tif, Or.inl (List.mem_cons_self tif rest), h1⟩
    split at h
    · rename_i tiff_info h1 e' hac
      cases h
      obtain ⟨hex, hfi⟩ := kindEntry_error fs c.do_master _ e hac
      exact ⟨_, Or.inr hex, hfi⟩
    split at h
    · rename_i e' huc
      cases h
      obtain ⟨hex, hfi⟩ := kindEntry_error fs c.do_user _ e huc
      exact ⟨_, Or.inr hex, hfi⟩
    split at h
    · rename_i e' htx
      cases h
      obtain ⟨hex, hfi⟩ := kindEntry_error fs c.do_txt _ e htx
      exact ⟨_, Or.inr hex, hfi⟩
    split at h
    · rename_i e' hal
      cases h
      obtain ⟨hex, hfi⟩ := kindEntry_error fs c.do_alto _ e hal
      exact ⟨_, Or.inr hex, hfi⟩
    split at h
    · rename_i e' hrest
      cases h
      obtain ⟨p, hp, hfi⟩ := ih (idx + 1) e hrest
      rcases hp with hmem | hex
      · exact ⟨p, Or.inl (List.mem_cons_of_mem tif hmem), hfi⟩
      · exact ⟨p, Or.inr hex, hfi⟩
    exact Except.noConfusion h

lemma build_pages_ok_exists (fs : ManifestFS) (output_dir : String) (c : Config)
    (hio : ∀ q, fs.pathExists q = true → ∃ fi, file_info fs q = Except.ok fi) :
    ∀ (tiffs : List String) (idx : Nat),
      (∀ t ∈ tiffs, fs.pathExists t = true) →
      ∃ pages, build_pages fs output_dir c tiffs idx = Except.ok pages := by
  intro tiffs
  induction tiffs with
  | nil => intro idx _; exact ⟨[], rfl⟩
  | cons tif rest ih =>
    intro idx htiffs
    obtain ⟨ti, hti⟩ := hio tif (htiffs tif (List.mem_cons_self tif rest))
    obtain ⟨ac, hac⟩ := kindEntry_ok_exists fs c.do_master
      (output_dir ++ "/" ++ zeroPad c.digits idx ++ ".ac.jp2") hio
    obtain ⟨uc, huc⟩ := kindEntry_ok_exists fs c.do_user
      (output_dir ++ "/" ++ zeroPad c.digits idx ++ ".uc.jp2") hio
    obtain ⟨tx, htx⟩ := kindEntry_ok_exists fs c.do_txt
      (output_dir ++ "/" ++ zeroPad c.digits idx ++ ".ocr.txt") hio
    obtain ⟨al, hal⟩ := kindEntry_ok_exists fs c.do_alto
      (output_dir ++ "/" ++ zeroPad c.digits idx ++ ".ocr.xml") hio
    obtain ⟨restPages, hrest⟩ := ih (idx + 1)
      (fun t ht => htiffs t (List.mem_cons_of_mem tif ht))
    refine ⟨{ index := zeroPad c.digits idx, original_tiff := ti, ac_jp2 := ac,
              uc_jp2 := uc, txt := tx, alto := al } :: restPages, ?_⟩
    unfold build_pages
    rw [hti, hac, huc, htx, hal, hrest]

/-! ### Claim C7 -/

/-- C7: the manifest builder records, per page and enabled kind, a
`FileRecord` exactly when the expected output path exists at call time
(`isSome` iff enabled and present); a missing expected file, or a disabled
kind, is recorded as absent (`none`) and is never an error; the builder can
fail only through an IO error of `file_info` on a file that does exist, and
when every existing file is readable it always succeeds. -/
theorem manifest_absent_vs_present (fs : ManifestFS) (tiffs : List String)
    (output_dir : String) (index_start : Nat) (c : Config)
    (htiffs : ∀ t ∈ tiffs, fs.pathExists t = true) :
    (∀ pages, build_manifest_for_batch fs tiffs output_dir index_start c =
        Except.ok pages →
      pages.length = tiffs.length ∧
      ∀ i pe, pages.get? i = some pe →
        pe.index = zeroPad c.digits (index_start + i) ∧
        pe.ac_jp2.isSome = (c.do_master && fs.pathExists
          (output_dir ++ "/" ++ zeroPad c.digits (index_start + i) ++ ".ac.jp2")) ∧
        pe.uc_jp2.isSome = (c.do_user && fs.pathExists
          (output_dir ++ "/" ++ zeroPad c.digits (index_start + i) ++ ".uc.jp2")) ∧
        pe.txt.isSome = (c.do_txt && fs.pathExists
          (output_dir ++ "/" ++ zeroPad c.digits (index_start + i) ++ ".ocr.txt")) ∧
        pe.alto.isSome = (c.do_alto && fs.pathExists
          (output_dir ++ "/" ++ zeroPad c.digits (index_start + i) ++ ".ocr.xml"))) ∧
    (∀ e, build_manifest_for_batch fs tiffs output_dir index_start c =
        Except.error e →
      ∃ p, fs.pathExists p = true ∧ file_info fs p = Except.error e) ∧
    ((∀ q, fs.pathExists q = true → ∃ fi, file_info fs q = Except.ok fi) →
      ∃ pages, build_manifest_for_batch fs tiffs output_dir index_start c =
        Except.ok pages) := by
  refine ⟨?_, ?_, ?_⟩
  · intro pages h
    exact build_pages_ok_spec fs output_dir c tiffs index_start pages h
  · intro e h
    obtain ⟨p, hp, hfi⟩ := build_pages_error_spec fs output_dir c tiffs index_start e h
    rcases hp with hmem | hex
    · exact ⟨p, htiffs p hmem, hfi⟩
    · exact ⟨p, hex, hfi⟩
  · intro hio
    exact build_pages_ok_exists fs output_dir c hio tiffs index_start htiffs

/-- A filesystem on which every path exists and every read succeeds. -/
def fsAll : ManifestFS :=
  { pathExists := fun _ => true,
    metaSize := fun _ => Except.ok 0,
    hashHex := fun _ => Except.ok "d" }

/-- C7 witness: on a fully readable filesystem the builder succeeds for a
one-page batch with all kinds enabled. -/
theorem manifest_absent_vs_present_witness :
    ∃ pages, build_manifest_for_batch fsAll ["in/t.tif"] "out" 1 cfg0 =
      Except.ok pages :=
  (manifest_absent_vs_present fsAll ["in/t.tif"] "out" 1 cfg0
      (fun _ _ => rfl)).2.2
    (fun q _ => ⟨{ path := q, size := 0, blake3 := "d" }, rfl⟩)

/-! ### Content-hasher lemmas -/

/-- A lowercase hexadecimal digit: `0`–`9` or `a`–`f`. -/
def isLowerHex (c : Char) : Bool :=
  (('0' ≤ c && c ≤ '9') || ('a' ≤ c && c ≤ 'f'))

lemma hexDigit_isLowerHex : ∀ n < 16, isLowerHex (hexDigit n) = true := by decide

lemma read_loop_chunks (cs : List (List (Fin 256))) (hne : ∀ ch ∈ cs, ch ≠ []) :
    read_loop (cs.map Except.ok) = Except.ok cs.flatten := by
  induction cs with
  | nil => rfl
  | cons ch rest ih =>
    have hch : ch ≠ [] := hne ch (List.mem_cons_self ch rest)
    have hch' : ch.isEmpty = false := by
      cases ch with
      | nil => exact absurd rfl hch
      | cons a l => rfl
    simp only [List.map_cons, read_loop, hch', Bool.false_eq_true, if_false]
    rw [ih (fun c hc => hne c (List.mem_cons_of_mem ch hc))]
    rfl

lemma toHexLower_chars (bs : List (Fin 256)) :
    ∀ ch ∈ (toHexLower bs).toList, isLowerHex ch = true := by
  intro ch hch
  have hdata : (toHexLower bs).toList =
      bs.flatMap fun b => [hexDigit (b.val / 16), hexDigit (b.val % 16)] := rfl
  rw [hdata] at hch
  obtain ⟨b, _, hb⟩ := List.mem_flatMap.mp hch
  simp only [List.mem_cons, List.not_mem_nil, or_false] at hb
  rcases hb with h | h
  · subst h
    exact hexDigit_isLowerHex (b.val / 16) (by omega)
  · subst h
    exact hexDigit_isLowerHex (b.val % 16) (by omega)

lemma hexlist_length :
    ∀ bs : List (Fin 256),
      (bs.flatMap fun b => [hexDigit (b.val / 16), hexDigit (b.val % 16)]).length =
        2 * bs.length
  | [] => rfl
  | b :: rest => by
    simp only [List.flatMap_cons, List.length_append, hexlist_length rest,
      List.length_cons, List.length_nil]
    omega

lemma toHexLower_length (bs : List (Fin 256)) :
    (toHexLower bs).length = 2 * bs.length := by
  have hdata : (toHexLower bs).length =
      (bs.flatMap fun b => [hexDigit (b.val / 16), hexDigit (b.val % 16)]).length := rfl
  rw [hdata]
  exact hexlist_length bs

/-! ### Claim C9 -/

/-- C9: the digest of the content hasher depends only on the bytes read,
not on the chunking the OS delivers — two invocations over any two chunkings
of the same byte contents give the same digest; every digest emitted is a
complete lowercase-hexadecimal rendering (two hex digits per digest byte);
and an open failure or a read failure yields an error, never a (partial)
digest.  The BLAKE3 compression itself is the external crate, abstracted as
`hashFn`. -/
theorem hasher_digest_deterministic_and_hex
    (hashFn : List (Fin 256) → List (Fin 256))
    (cs1 cs2 : List (List (Fin 256)))
    (reads : List (Except String (List (Fin 256)))) (e : String)
    (hne1 : ∀ ch ∈ cs1, ch ≠ []) (hne2 : ∀ ch ∈ cs2, ch ≠ [])
    (hsame : cs1.flatten = cs2.flatten) :
    compute_blake3 hashFn (Except.ok ()) (cs1.map Except.ok) =
      compute_blake3 hashFn (Except.ok ()) (cs2.map Except.ok) ∧
    compute_blake3 hashFn (Except.ok ()) (cs1.map Except.ok) =
      Except.ok (toHexLower (hashFn cs1.flatten)) ∧
    (∀ s, compute_blake3 hashFn (Except.ok ()) reads = Except.ok s →
      (∀ ch ∈ s.toList, isLowerHex ch = true) ∧
      ∃ bs, read_loop reads = Except.ok bs ∧ s.length = 2 * (hashFn bs).length) ∧
    compute_blake3 hashFn (Except.error e) reads = Except.error e ∧
    (read_loop reads = Except.error e →
      compute_blake3 hashFn (Except.ok ()) reads = Except.error e) := by
  have h1 : compute_blake3 hashFn (Except.ok ()) (cs1.map Except.ok) =
      Except.ok (toHexLower (hashFn cs1.flatten)) := by
    unfold compute_blake3
    rw [read_loop_chunks cs1 hne1]
  have h2 : compute_blake3 hashFn (Except.ok ()) (cs2.map Except.ok) =
      Except.ok (toHexLower (hashFn cs2.flatten)) := by
    unfold compute_blake3
    rw [read_loop_chunks cs2 hne2]
  refine ⟨by rw [h1, h2, hsame], h1, ?_, rfl, ?_⟩
  · intro s hs
    unfold compute_blake3 at hs
    cases hr : read_loop reads with
    | error e' => rw [hr] at hs; exact Except.noConfusion hs
    | ok bs =>
      rw [hr] at hs
      have hs' : toHexLower (hashFn bs) = s := by
        cases hs; rfl
      subst hs'
      exact ⟨toHexLower_chars _, bs, rfl, toHexLower_length _⟩
  · intro hr
    unfold compute_blake3
    rw [hr]

/-- C9 witness: the bytes `[7, 255]` delivered as one chunk or as two
chunks hash to the same digest, which is the full lowercase-hex rendering;
an open error propagates as an error. -/
theorem hasher_digest_deterministic_and_hex_witness :
    compute_blake3 (fun bs => bs) (Except.ok ()) ([[(7 : Fin 256), 255]].map Except.ok) =
      compute_blake3 (fun bs => bs) (Except.ok ()) ([[(7 : Fin 256)], [255]].map Except.ok) ∧
    compute_blake3 (fun bs => bs) (Except.ok ()) ([[(7 : Fin 256), 255]].map Except.ok) =
      Except.ok (toHexLower ([(7 : Fin 256), 255])) ∧
    compute_blake3 (fun bs => bs) (Except.error "open failed") [] =
      Except.error "open failed" := by
  have h := hasher_digest_deterministic_and_hex (fun bs => bs)
    [[(7 : Fin 256), 255]] [[(7 : Fin 256)], [255]] [] "open failed"
    (by decide) (by decide) (by decide)
  exact ⟨h.1, h.2.1, h.2.2.2.1⟩

end LazyProArc
